import Mathlib

/-!
# Verification of the tinydi dependency-injection container

Shallow embedding of `src/container.ts` (the variant with `reference` /
`FactoryReference`).  The container owns two string-keyed maps — a factory
registry and an instance cache — and exposes `register`, `registerAsync`,
`reference`, `resolve`, `resolveAsync`, `clearInstance`, `clearAllInstances`.

Modelling choices, all driven by the source:
* JS `Map` is modelled as an association list with `mget` / `mset` /
  `mdelete` mirroring `get` / `set` / `delete` (insertion order kept,
  `set` overwrites in place).
* A cache slot holds an arbitrary JS value: `undefined`, a plain value, or a
  `Promise`.  A promise is modelled as a ghost identity (`Nat`) plus its
  eventual settlement (`Except E V`): the single-threaded model fixes a
  promise's outcome at creation, and the identity distinguishes distinct
  promise objects.  The source's cache-hit test `existingInstance !==
  undefined` therefore hits exactly on a stored entry that is not `undef` —
  a stored `undefined` is indistinguishable from an absent key, as in JS.
* At runtime a factory in the source is a record `{ name, resolve }`; the
  Sync/Async split is type-level only.  A build function is defunctionalised
  as `Nat → BuildOut V E`: the argument is the number of prior invocations of
  that factory's build (standing in for the mutable environment a JS closure
  may capture), and the output says whether the build throws synchronously,
  returns `undefined`, returns a plain value, or returns a fresh promise with
  a given eventual outcome.  The claims under verification involve no build
  that re-enters the container, so the container argument of `resolve` is not
  modelled.
* A runtime token is either a factory record or a reference
  `{ name, __REF: true }`; the source's `"__REF" in factory` probe becomes a
  tagged union (`Token`), as §9 of the spec itself suggests.
* Ghost state (never read by the modelled runtime logic except as the build's
  invocation index): `nextPid` for fresh promise identities, `nextFid` and
  `counts` for counting build invocations per factory, `issued` for the
  factory handles returned by registration.
-/

namespace TinyDI

universe u v

/-- `mget m k` models `Map.get(k)` on an association list. -/
def mget {κ : Type u} {α : Type v} [DecidableEq κ] : List (κ × α) → κ → Option α
  | [], _ => none
  | (k', v) :: rest, k => if k' = k then some v else mget rest k

/-- `mset m k v` models `Map.set(k, v)`: overwrite in place, else append. -/
def mset {κ : Type u} {α : Type v} [DecidableEq κ] : List (κ × α) → κ → α → List (κ × α)
  | [], k, v => [(k, v)]
  | (k', v') :: rest, k, v =>
      if k' = k then (k, v) :: rest else (k', v') :: mset rest k v

/-- `mdelete m k` models `Map.delete(k)`. -/
def mdelete {κ : Type u} {α : Type v} [DecidableEq κ] : List (κ × α) → κ → List (κ × α)
  | [], _ => []
  | (k', v') :: rest, k =>
      if k' = k then mdelete rest k else (k', v') :: mdelete rest k

/-- A JS value as stored in the instance cache: `undefined`, a plain value,
or a promise (ghost identity plus eventual settlement). -/
inductive JSVal (V E : Type) where
  | undef : JSVal V E
  | val : V → JSVal V E
  | promise : Nat → Except E V → JSVal V E

instance {E V : Type} [DecidableEq E] [DecidableEq V] : DecidableEq (Except E V)
  | .error a, .error b =>
      if h : a = b then .isTrue (by rw [h]) else .isFalse (by simp [h])
  | .error _, .ok _ => .isFalse (by simp)
  | .ok _, .error _ => .isFalse (by simp)
  | .ok a, .ok b =>
      if h : a = b then .isTrue (by rw [h]) else .isFalse (by simp [h])

instance {V E : Type} [DecidableEq V] [DecidableEq E] : DecidableEq (JSVal V E)
  | .undef, .undef => .isTrue rfl
  | .undef, .val _ => .isFalse (by simp)
  | .undef, .promise _ _ => .isFalse (by simp)
  | .val _, .undef => .isFalse (by simp)
  | .val a, .val b =>
      if h : a = b then .isTrue (by rw [h]) else .isFalse (by simp [h])
  | .val _, .promise _ _ => .isFalse (by simp)
  | .promise _ _, .undef => .isFalse (by simp)
  | .promise _ _, .val _ => .isFalse (by simp)
  | .promise p o, .promise q r =>
      if h : p = q ∧ o = r then .isTrue (by rw [h.1, h.2])
      else .isFalse (by simpa using h)

/-- What a build function does when invoked. -/
inductive BuildOut (V E : Type) where
  | throwE : E → BuildOut V E
  | retUndef : BuildOut V E
  | retVal : V → BuildOut V E
  | retPromise : Except E V → BuildOut V E

/-- A runtime factory record `{ name, resolve }`, with a ghost identity
`fid` used to count invocations of this particular build function. -/
structure Factory (V E : Type) where
  fid : Nat
  name : String
  build : Nat → BuildOut V E

/-- A token passed to resolution: a factory record, or a reference
`{ name, __REF: true }` (the source probes for the `__REF` marker; the spec
says to model this as a tagged union). -/
inductive Token (V E : Type) where
  | fac : Factory V E → Token V E
  | ref : String → Token V E

/-- What a resolution can throw: the `NotFound` error for a dangling
reference, or a value raised by a build (synchronous throw) / a promise
rejection. -/
inductive JSErr (E : Type) where
  | notFound : String → JSErr E
  | raised : E → JSErr E
deriving DecidableEq

/-- The container state: the two maps of the source plus ghost fields. -/
structure Container (V E : Type) where
  factories : List (String × Factory V E)
  instances : List (String × JSVal V E)
  nextPid : Nat
  nextFid : Nat
  counts : List (Nat × Nat)
  issued : List (Factory V E)

/-- `createContainer()`: both maps empty. -/
def Container.empty (V E : Type) : Container V E :=
  ⟨[], [], 0, 0, [], []⟩

/-- Number of invocations so far of the build with ghost identity `fid`. -/
def getCount (counts : List (Nat × Nat)) (fid : Nat) : Nat :=
  (mget counts fid).getD 0

/-- `register(name, resolver)`: install `{ name, resolve }` in the registry
under `name` (overwriting) and return the handle. -/
def Container.register (s : Container V E) (name : String) (build : Nat → BuildOut V E) :
    Factory V E × Container V E :=
  let f : Factory V E := ⟨s.nextFid, name, build⟩
  (f, { s with factories := mset s.factories name f
             , nextFid := s.nextFid + 1
             , issued := f :: s.issued })

/-- `registerAsync(name, resolver)`: at runtime the body is identical to
`register` (the Sync/Async distinction is type-level only in the source). -/
def Container.registerAsync (s : Container V E) (name : String) (build : Nat → BuildOut V E) :
    Factory V E × Container V E :=
  let f : Factory V E := ⟨s.nextFid, name, build⟩
  (f, { s with factories := mset s.factories name f
             , nextFid := s.nextFid + 1
             , issued := f :: s.issued })

/-- `reference(name)`: returns `{ name, __REF: true }`; no registry lookup,
no state change. -/
def Container.reference (name : String) : Token V E :=
  Token.ref name

/-- The token's own `name` field (`factory.name` in the source — for a
reference this is the reference's name). -/
def tokenName : Token V E → String
  | .fac f => f.name
  | .ref n => n

/-- The reference-dereferencing prologue of `resolveFactory`: a factory
token is used directly; a reference is looked up fresh in the registry
(`none` means the `NotFound` throw). -/
def lookupActual (s : Container V E) : Token V E → Option (Factory V E)
  | .fac f => some f
  | .ref n => mget s.factories n

/-- `actualFactory.resolve(this)` followed by
`this.instances.set(actualFactory.name, result)`.  The ghost `counts` entry
for the factory is bumped first (the build is invoked whatever it then
does); a synchronous throw caches nothing, every returned value — including
`undefined` — is stored. -/
def runBuild (s : Container V E) (f : Factory V E) :
    Except (JSErr E) (JSVal V E) × Container V E :=
  let k := getCount s.counts f.fid
  let s1 := { s with counts := mset s.counts f.fid (k + 1) }
  match f.build k with
  | .throwE e => (.error (.raised e), s1)
  | .retUndef =>
      (.ok .undef, { s1 with instances := mset s1.instances f.name .undef })
  | .retVal v =>
      (.ok (.val v), { s1 with instances := mset s1.instances f.name (.val v) })
  | .retPromise out =>
      let p : JSVal V E := .promise s1.nextPid out
      (.ok p,
       { s1 with instances := mset s1.instances f.name p
               , nextPid := s1.nextPid + 1 })

/-- `resolveFactory(factory)` (the spec's `resolveOne`): dereference a
reference (throwing `NotFound` if absent), then check the cache under the
token's name with `existingInstance !== undefined` — a hit returns the
cached entry verbatim — and on a miss invoke the build and cache its
result. -/
def Container.resolveFactory (s : Container V E) (t : Token V E) :
    Except (JSErr E) (JSVal V E) × Container V E :=
  match lookupActual s t with
  | none => (.error (.notFound (tokenName t)), s)
  | some f =>
      match mget s.instances (tokenName t) with
      | none => runBuild s f
      | some .undef => runBuild s f
      | some e => (.ok e, s)

/-- The loop body of `resolve`: `result[factory.name] = resolveFactory(...)`,
with a throw propagating and abandoning the partial result (cache mutations
persist). -/
def resolveLoop (s : Container V E) :
    List (Token V E) → List (String × JSVal V E) →
    Except (JSErr E) (List (String × JSVal V E)) × Container V E
  | [], acc => (.ok acc, s)
  | t :: ts, acc =>
      match s.resolveFactory t with
      | (.error err, s') => (.error err, s')
      | (.ok v, s') => resolveLoop s' ts (mset acc (tokenName t) v)

/-- `resolve(factories)`: the synchronous batch path. -/
def Container.resolve (s : Container V E) (ts : List (Token V E)) :
    Except (JSErr E) (List (String × JSVal V E)) × Container V E :=
  resolveLoop s ts []

/-- The `await Promise.all(promises)` phase of `resolveAsync`: every promise
entry of the result record is replaced by its settled value; a rejection
makes the whole call reject with that promise's error. -/
def awaitAll : List (String × JSVal V E) →
    Except (JSErr E) (List (String × JSVal V E))
  | [] => .ok []
  | (n, .promise _pid out) :: rest =>
      match out with
      | .error e => .error (.raised e)
      | .ok v => (awaitAll rest).map (fun r => (n, .val v) :: r)
  | (n, x) :: rest => (awaitAll rest).map (fun r => (n, x) :: r)

/-- `resolveAsync(factories)`: the same synchronous loop as `resolve`
(concurrent-start: every build is started or reused before any is awaited),
then the join that awaits every pending entry. -/
def Container.resolveAsync (s : Container V E) (ts : List (Token V E)) :
    Except (JSErr E) (List (String × JSVal V E)) × Container V E :=
  match resolveLoop s ts [] with
  | (.error err, s') => (.error err, s')
  | (.ok m, s') => (awaitAll m, s')

/-- `clearInstance(name)`: `this.instances.delete(name)`. -/
def Container.clearInstance (s : Container V E) (name : String) : Container V E :=
  { s with instances := mdelete s.instances name }

/-- `clearAllInstances()`: `this.instances.clear()`. -/
def Container.clearAllInstances (s : Container V E) : Container V E :=
  { s with instances := [] }

/-- Is this JS value a `Promise`?  (`resolved instanceof Promise` in the
source.) -/
def isPromise : JSVal V E → Bool
  | .promise _ _ => true
  | _ => false

/-- Settle one entry of a result record: a fulfilled promise becomes its
value, anything else is kept. -/
def settleEntry : String × JSVal V E → String × JSVal V E
  | (n, .promise _ (.ok v)) => (n, .val v)
  | q => q

/-- Does the result record contain a promise that will reject? -/
def hasRejection (m : List (String × JSVal V E)) : Bool :=
  m.any fun q =>
    match q.2 with
    | .promise _ (.error _) => true
    | _ => false

/-- One invocation of a public container operation, used to state frame
properties over arbitrary interleaved calls. -/
inductive Op (V E : Type) where
  | registerOp : String → (Nat → BuildOut V E) → Op V E
  | registerAsyncOp : String → (Nat → BuildOut V E) → Op V E
  | resolveOp : List (Token V E) → Op V E
  | resolveAsyncOp : List (Token V E) → Op V E
  | clearInstanceOp : String → Op V E
  | clearAllOp : Op V E

/-- The state effect of one public operation (returned handles and result
records are dropped). -/
def applyOp (s : Container V E) : Op V E → Container V E
  | .registerOp n b => (s.register n b).2
  | .registerAsyncOp n b => (s.registerAsync n b).2
  | .resolveOp ts => (s.resolve ts).2
  | .resolveAsyncOp ts => (s.resolveAsync ts).2
  | .clearInstanceOp n => s.clearInstance n
  | .clearAllOp => s.clearAllInstances

/-- The factory tokens of a batch are handles previously returned by a
registration on this container (references are created freely by
`reference`). -/
def TokensOK (s : Container V E) (ts : List (Token V E)) : Prop :=
  ∀ f : Factory V E, Token.fac f ∈ ts → f ∈ s.issued

/-- Container states reachable through the public operations, starting from
`createContainer()`; factory tokens handed to the resolution calls are
handles this container issued. -/
inductive Reachable : Container V E → Prop where
  | empty : Reachable (Container.empty V E)
  | register (s : Container V E) (n : String) (b : Nat → BuildOut V E) :
      Reachable s → Reachable (s.register n b).2
  | registerAsync (s : Container V E) (n : String) (b : Nat → BuildOut V E) :
      Reachable s → Reachable (s.registerAsync n b).2
  | resolve (s : Container V E) (ts : List (Token V E)) :
      Reachable s → TokensOK s ts → Reachable (s.resolve ts).2
  | resolveAsync (s : Container V E) (ts : List (Token V E)) :
      Reachable s → TokensOK s ts → Reachable (s.resolveAsync ts).2
  | clearInstance (s : Container V E) (n : String) :
      Reachable s → Reachable (s.clearInstance n)
  | clearAllInstances (s : Container V E) :
      Reachable s → Reachable s.clearAllInstances

/-- `m` back-to-back resolutions of the same token (state effect only). -/
def iterateResolve (t : Token V E) : Nat → Container V E → Container V E
  | 0, s => s
  | m + 1, s => iterateResolve t m (s.resolveFactory t).2

/-- Registry well-formedness: every registry value is stored under its own
name.  The source can only populate the registry through `register` /
`registerAsync`, which use `factory.name` as the key, so every state the
class reaches satisfies this. -/
def WF (s : Container V E) : Prop :=
  ∀ n f, mget s.factories n = some f → f.name = n

/-! Concrete scenarios used to instantiate the general theorems. -/

/-- A sync build that always returns the value `7`. -/
def bVal7 : Nat → BuildOut Nat Nat := fun _ => BuildOut.retVal 7

/-- Registration of `bVal7` under `"a"` in a fresh container. -/
def c1reg : Factory Nat Nat × Container Nat Nat :=
  (Container.empty Nat Nat).register "a" bVal7

/-- First resolution of the `"a"` handle. -/
def c1r1 : Except (JSErr Nat) (JSVal Nat Nat) × Container Nat Nat :=
  c1reg.2.resolveFactory (Token.fac c1reg.1)

/-- A sync build that always returns the value `1` (playing `buildA`). -/
def bVal1 : Nat → BuildOut Nat Nat := fun _ => BuildOut.retVal 1

/-- A sync build that always returns the value `2` (playing `buildB`). -/
def bVal2 : Nat → BuildOut Nat Nat := fun _ => BuildOut.retVal 2

/-- `register("x", buildA)` in a fresh container. -/
def c2regA : Factory Nat Nat × Container Nat Nat :=
  (Container.empty Nat Nat).register "x" bVal1

/-- Re-registration of `"x"` to `buildB` before any resolution. -/
def c2regB : Factory Nat Nat × Container Nat Nat :=
  c2regA.2.register "x" bVal2

/-- An async build whose promise rejects with the error `3`. -/
def bRej3 : Nat → BuildOut Nat Nat := fun _ => BuildOut.retPromise (Except.error 3)

/-- Registration of the rejecting async build under `"p"`. -/
def c4reg : Factory Nat Nat × Container Nat Nat :=
  (Container.empty Nat Nat).registerAsync "p" bRej3

/-- First resolution of `"p"`: caches the rejected promise. -/
def c4r1 : Except (JSErr Nat) (JSVal Nat Nat) × Container Nat Nat :=
  c4reg.2.resolveFactory (Token.fac c4reg.1)

/-- Re-registration of `"a"` (whose value `7` is already cached) to the
build returning `2`. -/
def c5reg : Factory Nat Nat × Container Nat Nat :=
  c1r1.2.register "a" bVal2

/-- An async build whose promise fulfils with the value `2`. -/
def bProm2 : Nat → BuildOut Nat Nat := fun _ => BuildOut.retPromise (Except.ok 2)

/-- Registration of the fulfilling async build under `"m"`. -/
def c6reg : Factory Nat Nat × Container Nat Nat :=
  (Container.empty Nat Nat).registerAsync "m" bProm2

/-- A sync build that always returns `undefined`. -/
def bUndef : Nat → BuildOut Nat Nat := fun _ => BuildOut.retUndef

/-- Registration of the `undefined`-returning build under `"u"`. -/
def c10reg : Factory Nat Nat × Container Nat Nat :=
  (Container.empty Nat Nat).register "u" bUndef

/-- A reachable state with `"a"` registered and resolved through the public
batch path. -/
def c9s : Container Nat Nat :=
  (c1reg.2.resolve [Token.fac c1reg.1]).2

section MapLemmas

variable {κ : Type u} {α : Type v} [DecidableEq κ]

@[simp] theorem mget_nil (k : κ) : mget ([] : List (κ × α)) k = none := rfl

theorem mget_mset_self (m : List (κ × α)) (k : κ) (v : α) :
    mget (mset m k v) k = some v := by
  induction m with
  | nil => simp [mget, mset]
  | cons p rest ih =>
      obtain ⟨k', v'⟩ := p
      by_cases h : k' = k <;> simp [mget, mset, h, ih]

theorem mget_mset_ne (m : List (κ × α)) (k k' : κ) (v : α) (h : k' ≠ k) :
    mget (mset m k v) k' = mget m k' := by
  induction m with
  | nil => simp [mget, mset, Ne.symm h]
  | cons p rest ih =>
      obtain ⟨k₀, v₀⟩ := p
      by_cases h₀ : k₀ = k
      · subst h₀
        simp [mget, mset, Ne.symm h]
      · simp only [mset, if_neg h₀, mget]
        by_cases h₁ : k₀ = k' <;> simp [h₁, ih]

theorem mget_mdelete_self (m : List (κ × α)) (k : κ) :
    mget (mdelete m k) k = none := by
  induction m with
  | nil => simp [mdelete]
  | cons p rest ih =>
      obtain ⟨k₀, v₀⟩ := p
      by_cases h : k₀ = k <;> simp [mdelete, mget, h, ih]

theorem mget_mdelete_ne (m : List (κ × α)) (k k' : κ) (h : k' ≠ k) :
    mget (mdelete m k) k' = mget m k' := by
  induction m with
  | nil => simp [mdelete]
  | cons p rest ih =>
      obtain ⟨k₀, v₀⟩ := p
      by_cases h₀ : k₀ = k
      · subst h₀
        simp [mdelete, mget, Ne.symm h, ih]
      · simp only [mdelete, if_neg h₀, mget]
        by_cases h₁ : k₀ = k' <;> simp [h₁, ih]

theorem mdelete_of_none (m : List (κ × α)) (k : κ) (h : mget m k = none) :
    mdelete m k = m := by
  induction m with
  | nil => simp [mdelete]
  | cons p rest ih =>
      obtain ⟨k₀, v₀⟩ := p
      simp only [mget] at h
      by_cases h₀ : k₀ = k
      · simp [h₀] at h
      · simp only [if_neg h₀] at h
        simp [mdelete, h₀, ih h]

theorem mget_mset_isSome (m : List (κ × α)) (k k' : κ) (v : α)
    (h : (mget m k').isSome) : (mget (mset m k v) k').isSome := by
  by_cases hk : k' = k
  · subst hk
    simp [mget_mset_self]
  · rwa [mget_mset_ne m k k' v hk]

end MapLemmas

section CoreLemmas

/-- `resolveFactory` never touches the registry. -/
theorem resolveFactory_factories (s : Container V E) (t : Token V E) :
    (s.resolveFactory t).2.factories = s.factories := by
  unfold Container.resolveFactory
  cases h : lookupActual s t with
  | none => rfl
  | some f =>
      cases hc : mget s.instances (tokenName t) with
      | none => cases hb : f.build (getCount s.counts f.fid) <;>
          simp [runBuild, hb]
      | some e => cases e <;>
          first
            | rfl
            | (cases hb : f.build (getCount s.counts f.fid) <;>
                simp [runBuild, hb])

/-- `resolveFactory` never touches the issued-handles ghost list. -/
theorem resolveFactory_issued (s : Container V E) (t : Token V E) :
    (s.resolveFactory t).2.issued = s.issued := by
  unfold Container.resolveFactory
  cases h : lookupActual s t with
  | none => rfl
  | some f =>
      cases hc : mget s.instances (tokenName t) with
      | none => cases hb : f.build (getCount s.counts f.fid) <;>
          simp [runBuild, hb]
      | some e => cases e <;>
          first
            | rfl
            | (cases hb : f.build (getCount s.counts f.fid) <;>
                simp [runBuild, hb])

/-- `runBuild` bumps exactly the invoked factory's invocation count,
whatever the build does. -/
theorem runBuild_counts (s : Container V E) (f : Factory V E) :
    (runBuild s f).2.counts = mset s.counts f.fid (getCount s.counts f.fid + 1) := by
  cases hb : f.build (getCount s.counts f.fid) <;> simp [runBuild, hb]

/-- `resolveFactory` preserves registry well-formedness. -/
theorem resolveFactory_WF (s : Container V E) (t : Token V E) (h : WF s) :
    WF (s.resolveFactory t).2 := by
  intro n f hf
  exact h n f (by rwa [resolveFactory_factories] at hf)

/-- A cached entry that is not `undef` survives any single `resolveFactory`
call on a well-formed state: a hit returns it and a miss can only write
under a name whose cache slot was empty or `undef`. -/
theorem resolveFactory_frame (s : Container V E) (t : Token V E) (k : String)
    (e : JSVal V E) (hwf : WF s) (hk : mget s.instances k = some e)
    (hne : e ≠ JSVal.undef) :
    mget (s.resolveFactory t).2.instances k = some e := by
  unfold Container.resolveFactory
  cases hl : lookupActual s t with
  | none => exact hk
  | some f =>
      have hname : f.name = tokenName t := by
        cases t with
        | fac g => simp [lookupActual] at hl; rw [hl]; rfl
        | ref n => exact hwf n f hl
      have hwrite : ∀ x : JSVal V E,
          mget s.instances (tokenName t) = some JSVal.undef ∨
          mget s.instances (tokenName t) = none →
          mget (mset s.instances f.name x) k = some e := by
        intro x hmiss
        by_cases hkn : k = f.name
        · subst hkn
          rw [hname] at hk
          rcases hmiss with hmiss | hmiss <;> rw [hk] at hmiss
          · cases hmiss
            exact absurd rfl hne
          · cases hmiss
        · rwa [mget_mset_ne _ _ _ _ hkn]
      cases hc : mget s.instances (tokenName t) with
      | none =>
          cases hb : f.build (getCount s.counts f.fid) <;>
            simp_all [runBuild, hb, hwrite]
      | some e' =>
          cases e' with
          | undef =>
              cases hb : f.build (getCount s.counts f.fid) <;>
                simp_all [runBuild, hb, hwrite]
          | val v => exact hk
          | promise p o => exact hk

theorem getCount_mset_self (c : List (Nat × Nat)) (i v : Nat) :
    getCount (mset c i v) i = v := by
  simp [getCount, mget_mset_self]

theorem getCount_mset_ne (c : List (Nat × Nat)) (i j v : Nat) (h : j ≠ i) :
    getCount (mset c i v) j = getCount c j := by
  simp [getCount, mget_mset_ne _ _ _ _ h]

theorem runBuild_factories (s : Container V E) (f : Factory V E) :
    (runBuild s f).2.factories = s.factories := by
  cases hb : f.build (getCount s.counts f.fid) <;> simp [runBuild, hb]

theorem lookupActual_eq_of_factories (s s' : Container V E) (t : Token V E)
    (h : s'.factories = s.factories) : lookupActual s' t = lookupActual s t := by
  cases t <;> simp [lookupActual, h]

/-- A cache hit (entry present and not `undef`) returns the cached entry
verbatim and leaves the state untouched. -/
theorem resolveFactory_hit (s : Container V E) (t : Token V E) (f : Factory V E)
    (e : JSVal V E) (hl : lookupActual s t = some f)
    (hc : mget s.instances (tokenName t) = some e) (hne : e ≠ JSVal.undef) :
    s.resolveFactory t = (.ok e, s) := by
  unfold Container.resolveFactory
  rw [hl, hc]
  cases e with
  | undef => exact absurd rfl hne
  | val v => rfl
  | promise p o => rfl

/-- After a cache miss whose build returned a defined value, the state
records exactly one new invocation of that build, the registry is unchanged,
and the returned entry now sits in the cache under the token's name. -/
theorem runBuild_ok_state (s : Container V E) (t : Token V E) (f : Factory V E)
    (r : JSVal V E) (s' : Container V E) (hname : f.name = tokenName t)
    (h : runBuild s f = (.ok r, s')) (hne : r ≠ JSVal.undef) :
    s'.counts = mset s.counts f.fid (getCount s.counts f.fid + 1) ∧
    s'.factories = s.factories ∧ s'.issued = s.issued ∧
    mget s'.instances (tokenName t) = some r := by
  cases hb : f.build (getCount s.counts f.fid) with
  | throwE e => simp [runBuild, hb] at h
  | retUndef =>
      simp [runBuild, hb] at h
      exact absurd h.1.symm hne
  | retVal v =>
      simp [runBuild, hb] at h
      obtain ⟨hr, hs⟩ := h
      subst hr
      subst hs
      refine ⟨rfl, rfl, rfl, ?_⟩
      rw [← hname]
      exact mget_mset_self ..
  | retPromise out =>
      simp [runBuild, hb] at h
      obtain ⟨hr, hs⟩ := h
      subst hr
      subst hs
      refine ⟨rfl, rfl, rfl, ?_⟩
      rw [← hname]
      exact mget_mset_self ..

/-- The actual factory resolved by a token has the token's name (for a
factory token trivially, for a reference by registry well-formedness). -/
theorem lookupActual_name (s : Container V E) (t : Token V E) (f : Factory V E)
    (hwf : WF s) (hl : lookupActual s t = some f) : f.name = tokenName t := by
  cases t with
  | fac g =>
      simp [lookupActual] at hl
      rw [hl]
      rfl
  | ref n => exact hwf n f hl

theorem WF_empty : WF (Container.empty V E) := by
  intro n f h
  simp [Container.empty] at h

theorem WF_register (s : Container V E) (n : String) (b : Nat → BuildOut V E)
    (h : WF s) : WF (s.register n b).2 := by
  intro n' f' h'
  simp only [Container.register] at h'
  by_cases hn : n' = n
  · subst hn
    rw [mget_mset_self] at h'
    cases h'
    rfl
  · rw [mget_mset_ne _ _ _ _ hn] at h'
    exact h n' f' h'

theorem WF_registerAsync (s : Container V E) (n : String) (b : Nat → BuildOut V E)
    (h : WF s) : WF (s.registerAsync n b).2 := by
  intro n' f' h'
  simp only [Container.registerAsync] at h'
  by_cases hn : n' = n
  · subst hn
    rw [mget_mset_self] at h'
    cases h'
    rfl
  · rw [mget_mset_ne _ _ _ _ hn] at h'
    exact h n' f' h'

/-- The batch loop never touches the registry. -/
theorem resolveLoop_factories (ts : List (Token V E)) (s : Container V E)
    (acc : List (String × JSVal V E)) :
    (resolveLoop s ts acc).2.factories = s.factories := by
  induction ts generalizing s acc with
  | nil => rfl
  | cons t ts ih =>
      simp only [resolveLoop]
      rcases hr : s.resolveFactory t with ⟨res, s'⟩
      have hf : s'.factories = s.factories := by
        have := resolveFactory_factories s t
        rw [hr] at this
        exact this
      cases res with
      | error err => exact hf
      | ok v => rw [ih s' (mset acc (tokenName t) v), hf]

/-- The batch loop preserves registry well-formedness. -/
theorem resolveLoop_WF (ts : List (Token V E)) (s : Container V E)
    (acc : List (String × JSVal V E)) (hwf : WF s) :
    WF (resolveLoop s ts acc).2 := by
  intro n f hf
  exact hwf n f (by rwa [resolveLoop_factories] at hf)

/-- A cached non-`undef` entry survives a whole batch resolution. -/
theorem resolveLoop_frame (ts : List (Token V E)) (s : Container V E)
    (acc : List (String × JSVal V E)) (k : String) (e : JSVal V E)
    (hwf : WF s) (hk : mget s.instances k = some e) (hne : e ≠ JSVal.undef) :
    mget (resolveLoop s ts acc).2.instances k = some e := by
  induction ts generalizing s acc with
  | nil => exact hk
  | cons t ts ih =>
      simp only [resolveLoop]
      rcases hr : s.resolveFactory t with ⟨res, s'⟩
      have hk' : mget s'.instances k = some e := by
        have := resolveFactory_frame s t k e hwf hk hne
        rw [hr] at this
        exact this
      have hwf' : WF s' := by
        have := resolveFactory_WF s t hwf
        rw [hr] at this
        exact this
      cases res with
      | error err => exact hk'
      | ok v => exact ih s' (mset acc (tokenName t) v) hwf' hk'

/-- `resolveAsync` leaves the container in the same state as the underlying
synchronous loop (the join phase only reads promises). -/
theorem resolveAsync_state (s : Container V E) (ts : List (Token V E)) :
    (s.resolveAsync ts).2 = (s.resolve ts).2 := by
  unfold Container.resolveAsync Container.resolve
  rcases hr : resolveLoop s ts [] with ⟨res, s'⟩
  cases res <;> rfl

end CoreLemmas

section Claims

/-- C1 (amended): for a token whose first resolution returned a defined
(non-`undefined`) result, resolving again without intervening invalidation
returns the identical cached value / pending-result instance with the state
unchanged (so the second resolution invokes no build at all), and the first
resolution invoked each build function at most once.  The amendment
restricts the claim to builds whose result is not `undefined`: the
source's `!== undefined` cache test never hits for such a name (see the
counterexample and C10). -/
theorem C1_singleton_resolution (s : Container V E) (t : Token V E)
    (r : JSVal V E) (s' : Container V E) (hwf : WF s)
    (h : s.resolveFactory t = (.ok r, s')) (hne : r ≠ JSVal.undef) :
    s'.resolveFactory t = (.ok r, s') ∧
    ∀ j, getCount s'.counts j ≤ getCount s.counts j + 1 := by
  unfold Container.resolveFactory at h
  cases hl : lookupActual s t with
  | none =>
      rw [hl] at h
      cases h
  | some f =>
      rw [hl] at h
      have hname : f.name = tokenName t := lookupActual_name s t f hwf hl
      have hmiss : ∀ hm : runBuild s f = (.ok r, s'),
          s'.resolveFactory t = (.ok r, s') ∧
          ∀ j, getCount s'.counts j ≤ getCount s.counts j + 1 := by
        intro hm
        obtain ⟨hcn, hfa, _, hinst⟩ := runBuild_ok_state s t f r s' hname hm hne
        constructor
        · exact resolveFactory_hit s' t f r
            (by rw [lookupActual_eq_of_factories s s' t hfa]; exact hl) hinst hne
        · intro j
          rw [hcn]
          by_cases hj : j = f.fid
          · subst hj
            rw [getCount_mset_self]
          · rw [getCount_mset_ne _ _ _ _ hj]
            exact Nat.le_succ _
      cases hc : mget s.instances (tokenName t) with
      | none =>
          rw [hc] at h
          exact hmiss h
      | some e =>
          cases e with
          | undef =>
              rw [hc] at h
              exact hmiss h
          | val v =>
              rw [hc] at h
              cases h
              exact ⟨resolveFactory_hit s t f _ hl hc (by simp),
                fun j => Nat.le_succ _⟩
          | promise p o =>
              rw [hc] at h
              cases h
              exact ⟨resolveFactory_hit s t f _ hl hc (by simp),
                fun j => Nat.le_succ _⟩

/-- Witness for C1: a registered sync build returning `7` is resolved once;
the second resolution returns the identical cached value with no further
build invocation. -/
theorem C1_singleton_resolution_witness :
    c1r1.2.resolveFactory (Token.fac c1reg.1) = (.ok (JSVal.val 7), c1r1.2) :=
  (C1_singleton_resolution c1reg.2 (Token.fac c1reg.1) (JSVal.val 7) c1r1.2
    (WF_register _ "a" _ WF_empty) (by rfl) (by simp)).1

/-- C1 counterexample: a registered build that returns `undefined` is
invoked on *both* of two back-to-back resolutions of its name (no
invalidation in between), refuting the unrestricted at-most-once claim;
both resolutions do return (`undefined`). -/
theorem C1_counterexample :
    getCount
      ((((Container.empty Nat Nat).register "u"
          (fun _ => BuildOut.retUndef)).2.resolveFactory
        (Token.fac (⟨0, "u", fun _ => BuildOut.retUndef⟩ : Factory Nat Nat))).2.resolveFactory
        (Token.fac (⟨0, "u", fun _ => BuildOut.retUndef⟩ : Factory Nat Nat))).2.counts 0 = 2 ∧
    ((Container.empty Nat Nat).register "u"
        (fun _ => BuildOut.retUndef)).1 =
      (⟨0, "u", fun _ => BuildOut.retUndef⟩ : Factory Nat Nat) := by
  exact ⟨by decide, rfl⟩

/-- C2: resolution binds build logic differently for the two token kinds.
(1) Resolving a factory handle never consults the registry: the whole
outcome of `resolveFactory` on a `Token.fac` is unchanged under an arbitrary
replacement of the registry, so the handle's captured build runs even after
its registry entry is overwritten.  (2) Resolving a reference looks the
factory up fresh in the registry at resolution time: it behaves exactly like
resolving whatever factory is registered under that name right now, and a
reference resolved after a re-registration therefore yields the current
build's output (see the witness for the concrete `buildA`/`buildB`
scenario). -/
theorem C2_factory_vs_reference (s : Container V E) (hwf : WF s) :
    (∀ (f : Factory V E) (F' : List (String × Factory V E)),
        Container.resolveFactory { s with factories := F' } (Token.fac f) =
          ((s.resolveFactory (Token.fac f)).1,
           { (s.resolveFactory (Token.fac f)).2 with factories := F' })) ∧
    (∀ n : String,
        s.resolveFactory (Token.ref n) =
          match mget s.factories n with
          | some f => s.resolveFactory (Token.fac f)
          | none => (.error (.notFound n), s)) := by
  constructor
  · intro f F'
    show Container.resolveFactory _ _ = _
    unfold Container.resolveFactory
    simp only [lookupActual, tokenName]
    cases hc : mget s.instances f.name with
    | none =>
        cases hb : f.build (getCount s.counts f.fid) <;> simp [runBuild, hb]
    | some e =>
        cases e with
        | undef =>
            cases hb : f.build (getCount s.counts f.fid) <;> simp [runBuild, hb]
        | val v => rfl
        | promise p o => rfl
  · intro n
    cases hl : mget s.factories n with
    | none =>
        unfold Container.resolveFactory
        simp [lookupActual, hl, tokenName]
    | some f =>
        have hn : f.name = n := hwf n f hl
        unfold Container.resolveFactory
        simp [lookupActual, hl, tokenName, hn]

/-- Witness for C2, the spec's reference-indirection scenario:
`reference("x")` after `register("x", buildA)` then `register("x", buildB)`
(no resolution in between) yields `buildB`'s output `2`, while the factory
handle returned by the first registration still yields its captured
`buildA` output `1` even though its registry entry was overwritten. -/
theorem C2_factory_vs_reference_witness :
    (c2regB.2.resolveFactory (Container.reference "x")).1 = .ok (JSVal.val 2) ∧
    (c2regB.2.resolveFactory (Token.fac c2regA.1)).1 = .ok (JSVal.val 1) := by
  have h := C2_factory_vs_reference c2regB.2
    (WF_register _ "x" _ (WF_register _ "x" _ WF_empty))
  have hb := h.2 "x"
  constructor
  · show (c2regB.2.resolveFactory (Token.ref "x")).1 = _
    rw [hb]
    decide
  · decide

/-- C3: resolving a reference whose name has no registry entry throws the
`NotFound` error synchronously — the error value, not a rejected promise,
comes back and the state is untouched — while resolving a factory handle
can never produce `NotFound`. -/
theorem C3_notFound (s : Container V E) :
    (∀ n : String, mget s.factories n = none →
        s.resolveFactory (Token.ref n) = (.error (.notFound n), s)) ∧
    (∀ (f : Factory V E) (m : String),
        (s.resolveFactory (Token.fac f)).1 ≠ .error (.notFound m)) := by
  constructor
  · intro n hn
    unfold Container.resolveFactory
    simp [lookupActual, hn, tokenName]
  · intro f m
    unfold Container.resolveFactory
    simp only [lookupActual, tokenName]
    cases hc : mget s.instances f.name with
    | none =>
        cases hb : f.build (getCount s.counts f.fid) <;> simp [runBuild, hb]
    | some e =>
        cases e with
        | undef =>
            cases hb : f.build (getCount s.counts f.fid) <;> simp [runBuild, hb]
        | val v => simp
        | promise p o => simp

/-- Witness for C3: in a fresh container a reference to the unregistered
name `"ghost"` resolves to the `NotFound` error with the state unchanged,
and resolving a factory handle whose build throws still does not produce
`NotFound`. -/
theorem C3_notFound_witness :
    (Container.empty Nat Nat).resolveFactory (Container.reference "ghost") =
      (.error (JSErr.notFound "ghost"), Container.empty Nat Nat) ∧
    ((Container.empty Nat Nat).resolveFactory
        (Token.fac ⟨0, "g", fun _ => BuildOut.throwE 5⟩)).1 ≠
      .error (JSErr.notFound "g") :=
  ⟨(C3_notFound (Container.empty Nat Nat)).1 "ghost" rfl,
   (C3_notFound (Container.empty Nat Nat)).2 ⟨0, "g", fun _ => BuildOut.throwE 5⟩ "g"⟩

/-- C4: a failed asynchronous build is cached as failure.  With the rejected
promise sitting in the cache under the token's name, every resolution of
that token returns the very same rejected promise instance with the state
unchanged — the build is not invoked again — and the cached rejection
survives any public operation other than `clearInstance` of that name or
`clearAllInstances`. -/
theorem C4_rejection_cached (s : Container V E) (t : Token V E)
    (f : Factory V E) (pid : Nat) (e : E) (hwf : WF s)
    (hl : lookupActual s t = some f)
    (hc : mget s.instances (tokenName t) = some (JSVal.promise pid (Except.error e))) :
    s.resolveFactory t = (.ok (JSVal.promise pid (Except.error e)), s) ∧
    (∀ op : Op V E, op ≠ Op.clearInstanceOp (tokenName t) → op ≠ Op.clearAllOp →
        mget (applyOp s op).instances (tokenName t) =
          some (JSVal.promise pid (Except.error e))) := by
  constructor
  · exact resolveFactory_hit s t f _ hl hc (by simp)
  · intro op hop1 hop2
    cases op with
    | registerOp n b => exact hc
    | registerAsyncOp n b => exact hc
    | resolveOp ts =>
        exact resolveLoop_frame ts s [] _ _ hwf hc (by simp)
    | resolveAsyncOp ts =>
        show mget (s.resolveAsync ts).2.instances _ = _
        rw [resolveAsync_state]
        exact resolveLoop_frame ts s [] _ _ hwf hc (by simp)
    | clearInstanceOp n =>
        have hn : tokenName t ≠ n := by
          intro h
          exact hop1 (by rw [h])
        exact (mget_mdelete_ne s.instances n (tokenName t) hn).trans hc
    | clearAllOp => exact absurd rfl hop2

/-- Witness for C4: after the rejecting async build under `"p"` has been
resolved once (caching promise `0`, which rejects with `3`), resolving the
handle again returns the identical cached rejected promise with the state
untouched, and an unrelated `clearInstance("other")` leaves the cached
rejection in place. -/
theorem C4_rejection_cached_witness :
    c4r1.2.resolveFactory (Token.fac c4reg.1) =
      (.ok (JSVal.promise 0 (Except.error 3)), c4r1.2) ∧
    mget (applyOp c4r1.2 (Op.clearInstanceOp "other")).instances "p" =
      some (JSVal.promise 0 (Except.error 3)) := by
  have h := C4_rejection_cached c4r1.2 (Token.fac c4reg.1) c4reg.1 0 3
    (WF_registerAsync _ "p" _ WF_empty) rfl (by decide)
  refine ⟨h.1, h.2 (Op.clearInstanceOp "other") ?_ (by simp)⟩
  intro hco
  injection hco with hco'
  exact absurd hco' (by decide)

/-- C5: `register` and `registerAsync` overwrite only the registry entry for
the given name: the instance cache is left completely unchanged, every other
registry entry is untouched, and a name whose (defined) value is already
cached still resolves — through a fresh reference or through the newly
returned handle — to the previously cached instance with no build
invocation, rather than running the new build. -/
theorem C5_register_keeps_cache (s : Container V E) (n : String)
    (b b' : Nat → BuildOut V E) (e : JSVal V E)
    (hc : mget s.instances n = some e) (hne : e ≠ JSVal.undef) :
    (s.register n b).2.instances = s.instances ∧
    (s.registerAsync n b').2.instances = s.instances ∧
    (∀ k, k ≠ n → mget (s.register n b).2.factories k = mget s.factories k) ∧
    (∀ k, k ≠ n → mget (s.registerAsync n b').2.factories k = mget s.factories k) ∧
    (s.register n b).2.resolveFactory (Token.ref n) = (.ok e, (s.register n b).2) ∧
    (s.register n b).2.resolveFactory (Token.fac (s.register n b).1) =
      (.ok e, (s.register n b).2) ∧
    (s.registerAsync n b').2.resolveFactory (Token.ref n) =
      (.ok e, (s.registerAsync n b').2) ∧
    (s.registerAsync n b').2.resolveFactory (Token.fac (s.registerAsync n b').1) =
      (.ok e, (s.registerAsync n b').2) := by
  refine ⟨rfl, rfl, ?_, ?_, ?_, ?_, ?_, ?_⟩
  · intro k hk
    exact mget_mset_ne s.factories n k _ hk
  · intro k hk
    exact mget_mset_ne s.factories n k _ hk
  · exact resolveFactory_hit _ _ ((s.register n b).1) e
      (by simp [lookupActual, Container.register, mget_mset_self]) hc hne
  · exact resolveFactory_hit _ _ ((s.register n b).1) e rfl hc hne
  · exact resolveFactory_hit _ _ ((s.registerAsync n b').1) e
      (by simp [lookupActual, Container.registerAsync, mget_mset_self]) hc hne
  · exact resolveFactory_hit _ _ ((s.registerAsync n b').1) e rfl hc hne

/-- Witness for C5: with `7` cached under `"a"`, re-registering `"a"` to the
build returning `2` leaves the cache unchanged and a subsequent resolution
of `"a"` still returns the cached `7`. -/
theorem C5_register_keeps_cache_witness :
    c5reg.2.instances = c1r1.2.instances ∧
    c5reg.2.resolveFactory (Token.ref "a") = (.ok (JSVal.val 7), c5reg.2) := by
  have h := C5_register_keeps_cache c1r1.2 "a" bVal2 bVal2 (JSVal.val 7)
    (by decide) (by decide)
  exact ⟨h.1, h.2.2.2.2.1⟩

/-- C6: the synchronous batch path returns its name-keyed mapping with any
asynchronous factory's entry being the still-pending promise itself (the
fresh promise object, whatever its eventual outcome `out`), not its settled
value — `resolve` never inspects a promise's outcome. -/
theorem C6_resolve_returns_pending (s : Container V E) (f : Factory V E)
    (out : Except E V) (hc : mget s.instances f.name = none)
    (hb : f.build (getCount s.counts f.fid) = BuildOut.retPromise out) :
    (s.resolve [Token.fac f]).1 = .ok [(f.name, JSVal.promise s.nextPid out)] := by
  show (resolveLoop s [Token.fac f] []).1 = _
  simp only [resolveLoop]
  rcases hr : s.resolveFactory (Token.fac f) with ⟨res, s'⟩
  have : s.resolveFactory (Token.fac f) =
      (.ok (JSVal.promise s.nextPid out),
       { s with counts := mset s.counts f.fid (getCount s.counts f.fid + 1)
              , instances := mset s.instances f.name (JSVal.promise s.nextPid out)
              , nextPid := s.nextPid + 1 }) := by
    unfold Container.resolveFactory
    show (match mget s.instances (tokenName (Token.fac f)) with
          | none => runBuild s f
          | some .undef => runBuild s f
          | some e => (.ok e, s)) = _
    rw [show tokenName (Token.fac f) = f.name from rfl, hc]
    simp [runBuild, hb]
  rw [hr] at this
  cases this
  rfl

/-- Witness for C6: resolving the batch `[asyncFactory]` for the fulfilling
async build under `"m"` through `resolve` yields the pending promise `0`
(which will settle to `2`) under `"m"`, not the value `2`. -/
theorem C6_resolve_returns_pending_witness :
    (c6reg.2.resolve [Token.fac c6reg.1]).1 =
      .ok [("m", JSVal.promise 0 (Except.ok 2))] :=
  C6_resolve_returns_pending c6reg.2 c6reg.1 (Except.ok 2) rfl rfl

theorem awaitAll_ok (m : List (String × JSVal V E)) (h : hasRejection m = false) :
    awaitAll m = .ok (m.map settleEntry) := by
  induction m with
  | nil => rfl
  | cons q rest ih =>
      rcases q with ⟨n, x⟩
      simp only [hasRejection, List.any_cons, Bool.or_eq_false_iff] at h
      have hrest : hasRejection rest = false := h.2
      cases x with
      | undef => simp [awaitAll, settleEntry, ih hrest, Except.map]
      | val v => simp [awaitAll, settleEntry, ih hrest, Except.map]
      | promise pid out =>
          cases out with
          | ok v => simp [awaitAll, settleEntry, ih hrest, Except.map]
          | error e => simp at h

theorem awaitAll_err (m : List (String × JSVal V E)) (n : String) (pid : Nat)
    (e : E) (hmem : (n, JSVal.promise pid (Except.error e)) ∈ m) :
    ∃ e', awaitAll m = .error (JSErr.raised e') ∧
      ∃ n' pid', (n', JSVal.promise pid' (Except.error e')) ∈ m := by
  induction m with
  | nil => cases hmem
  | cons q rest ih =>
      rcases q with ⟨n₀, x⟩
      have tail_case : (n, JSVal.promise pid (Except.error e)) ∈ rest →
          (∀ r, awaitAll ((n₀, x) :: rest) = (awaitAll rest).map (fun l => (n₀, r) :: l) →
            ∃ e', awaitAll ((n₀, x) :: rest) = .error (JSErr.raised e') ∧
              ∃ n' pid', (n', JSVal.promise pid' (Except.error e')) ∈ (n₀, x) :: rest) := by
        intro hm r hrw
        obtain ⟨e', h1, n', pid', h2⟩ := ih hm
        refine ⟨e', ?_, n', pid', List.mem_cons_of_mem _ h2⟩
        rw [hrw, h1]
        rfl
      cases x with
      | undef =>
          have hm : (n, JSVal.promise pid (Except.error e)) ∈ rest := by
            rcases List.mem_cons.mp hmem with hh | ht
            · simp at hh
            · exact ht
          obtain ⟨e', h1, n', pid', h2⟩ := ih hm
          exact ⟨e', by simp [awaitAll, h1, Except.map],
            n', pid', List.mem_cons_of_mem _ h2⟩
      | val v =>
          have hm : (n, JSVal.promise pid (Except.error e)) ∈ rest := by
            rcases List.mem_cons.mp hmem with hh | ht
            · simp at hh
            · exact ht
          obtain ⟨e', h1, n', pid', h2⟩ := ih hm
          exact ⟨e', by simp [awaitAll, h1, Except.map],
            n', pid', List.mem_cons_of_mem _ h2⟩
      | promise pid₀ out =>
          cases out with
          | error e₀ =>
              exact ⟨e₀, by simp [awaitAll], n₀, pid₀, List.mem_cons_self _ _⟩
          | ok v =>
              have hm : (n, JSVal.promise pid (Except.error e)) ∈ rest := by
                rcases List.mem_cons.mp hmem with hh | ht
                · simp at hh
                · exact ht
              obtain ⟨e', h1, n', pid', h2⟩ := ih hm
              exact ⟨e', by simp [awaitAll, h1, Except.map],
                n', pid', List.mem_cons_of_mem _ h2⟩

theorem settled_no_promise (m : List (String × JSVal V E))
    (h : hasRejection m = false) :
    ∀ q ∈ m.map settleEntry, isPromise q.2 = false := by
  intro q hq
  obtain ⟨p, hp, hpq⟩ := List.mem_map.mp hq
  subst hpq
  rcases p with ⟨n, x⟩
  cases x with
  | undef => rfl
  | val v => rfl
  | promise pid out =>
      cases out with
      | ok v => rfl
      | error e =>
          exfalso
          have htrue : hasRejection m = true := by
            have : ∃ q ∈ m, (match q.2 with
                | JSVal.promise _ (Except.error _) => true
                | _ => false) = true :=
              ⟨(n, JSVal.promise pid (Except.error e)), hp, rfl⟩
            simpa [hasRejection, List.any_eq_true] using this
          rw [h] at htrue
          cases htrue

/-- C7: `resolveAsync` awaits every pending entry of the batch result.  If
no promise of the batch rejects, it returns the mapping with every promise
replaced by its settled value (so no entry is a pending result) in the same
final state as the synchronous path; if some promise of the batch rejects,
the whole call fails, propagating the rejection of one of the batch's
rejected promises. -/
theorem C7_resolveAsync_awaits (s : Container V E) (ts : List (Token V E))
    (m : List (String × JSVal V E)) (s' : Container V E)
    (h : s.resolve ts = (.ok m, s')) :
    (hasRejection m = false →
        s.resolveAsync ts = (.ok (m.map settleEntry), s') ∧
        ∀ q ∈ m.map settleEntry, isPromise q.2 = false) ∧
    (∀ n pid e, (n, JSVal.promise pid (Except.error e)) ∈ m →
        ∃ e', (s.resolveAsync ts).1 = .error (.raised e') ∧
          ∃ n' pid', (n', JSVal.promise pid' (Except.error e')) ∈ m) := by
  have hr : resolveLoop s ts [] = (.ok m, s') := h
  have hasync : s.resolveAsync ts = (awaitAll m, s') := by
    unfold Container.resolveAsync
    rw [hr]
  constructor
  · intro hno
    rw [hasync, awaitAll_ok m hno]
    exact ⟨rfl, settled_no_promise m hno⟩
  · intro n pid e hmem
    obtain ⟨e', h1, h2⟩ := awaitAll_err m n pid e hmem
    rw [hasync]
    exact ⟨e', by rw [h1], h2⟩

/-- Witness for C7: resolving the batch `[asyncFactory]` for the fulfilling
build under `"m"` through `resolveAsync` yields the settled value `2` under
`"m"`, and for the rejecting build under `"p"` the whole `resolveAsync`
call fails with the rejection `3`. -/
theorem C7_resolveAsync_awaits_witness :
    (c6reg.2.resolveAsync [Token.fac c6reg.1]).1 =
      .ok [("m", JSVal.val 2)] ∧
    (c4reg.2.resolveAsync [Token.fac c4reg.1]).1 =
      .error (JSErr.raised 3) := by
  constructor
  · have h := (C7_resolveAsync_awaits c6reg.2 [Token.fac c6reg.1]
      [("m", JSVal.promise 0 (Except.ok 2))]
      (c6reg.2.resolve [Token.fac c6reg.1]).2 (by rfl)).1 (by decide)
    rw [h.1]
    rfl
  · have h := (C7_resolveAsync_awaits c4reg.2 [Token.fac c4reg.1]
      [("p", JSVal.promise 0 (Except.error 3))]
      (c4reg.2.resolve [Token.fac c4reg.1]).2 (by rfl)).2 "p" 0 3 (by decide)
    obtain ⟨e', h1, n', pid', h2⟩ := h
    have he : e' = 3 := by
      simp only [List.mem_singleton, Prod.mk.injEq, JSVal.promise.injEq,
        Except.error.injEq] at h2
      exact h2.2.2
    rw [h1, he]

theorem resolveFactory_miss (s : Container V E) (t : Token V E)
    (f : Factory V E) (hl : lookupActual s t = some f)
    (hc : mget s.instances (tokenName t) = none) :
    s.resolveFactory t = runBuild s f := by
  unfold Container.resolveFactory
  rw [hl, hc]

/-- C8: `clearInstance(name)` removes exactly the cache entry for `name` —
every other cache entry, the whole registry and the invocation counts are
untouched — it is a no-op when nothing is cached under `name`, and the next
resolution of a token for `name` invokes the (actual) build function again:
its invocation count goes up by one. -/
theorem C8_clearInstance_exact (s : Container V E) (n : String) :
    mget (s.clearInstance n).instances n = none ∧
    (∀ k, k ≠ n → mget (s.clearInstance n).instances k = mget s.instances k) ∧
    (s.clearInstance n).factories = s.factories ∧
    (s.clearInstance n).counts = s.counts ∧
    (mget s.instances n = none → s.clearInstance n = s) ∧
    (∀ (t : Token V E) (f : Factory V E), lookupActual s t = some f →
        tokenName t = n →
        getCount ((s.clearInstance n).resolveFactory t).2.counts f.fid =
          getCount s.counts f.fid + 1) := by
  refine ⟨mget_mdelete_self _ _, fun k hk => mget_mdelete_ne _ _ _ hk, rfl, rfl,
    ?_, ?_⟩
  · intro hnone
    show { s with instances := mdelete s.instances n } = s
    rw [mdelete_of_none s.instances n hnone]
  · intro t f hl hn
    have hl' : lookupActual (s.clearInstance n) t = some f := by
      rw [lookupActual_eq_of_factories s (s.clearInstance n) t rfl]
      exact hl
    have hc : mget (s.clearInstance n).instances (tokenName t) = none := by
      rw [hn]
      exact mget_mdelete_self _ _
    rw [resolveFactory_miss _ _ _ hl' hc, runBuild_counts]
    rw [show (s.clearInstance n).counts = s.counts from rfl, getCount_mset_self]

/-- Witness for C8: with `7` cached under `"a"` and its build invoked once,
`clearInstance("a")` empties the `"a"` slot, `clearInstance("zzz")` (nothing
cached there) is the identity, and resolving the `"a"` handle after the
clear invokes the build a second time. -/
theorem C8_clearInstance_exact_witness :
    mget (c1r1.2.clearInstance "a").instances "a" = none ∧
    c1r1.2.clearInstance "zzz" = c1r1.2 ∧
    getCount ((c1r1.2.clearInstance "a").resolveFactory
        (Token.fac c1reg.1)).2.counts c1reg.1.fid =
      getCount c1r1.2.counts c1reg.1.fid + 1 := by
  have h1 := C8_clearInstance_exact c1r1.2 "a"
  have h2 := C8_clearInstance_exact c1r1.2 "zzz"
  exact ⟨h1.1, h2.2.2.2.2.1 (by decide),
    h1.2.2.2.2.2 (Token.fac c1reg.1) c1reg.1 rfl rfl⟩

theorem resolveFactory_missUndef (s : Container V E) (t : Token V E)
    (f : Factory V E) (hl : lookupActual s t = some f)
    (hc : mget s.instances (tokenName t) = some JSVal.undef) :
    s.resolveFactory t = runBuild s f := by
  unfold Container.resolveFactory
  rw [hl, hc]

theorem runBuild_instances_shape (s : Container V E) (f : Factory V E) :
    (runBuild s f).2.instances = s.instances ∨
    ∃ x, (runBuild s f).2.instances = mset s.instances f.name x := by
  cases hb : f.build (getCount s.counts f.fid) with
  | throwE e => exact Or.inl (by simp [runBuild, hb])
  | retUndef => exact Or.inr ⟨.undef, by simp [runBuild, hb]⟩
  | retVal v => exact Or.inr ⟨.val v, by simp [runBuild, hb]⟩
  | retPromise out =>
      exact Or.inr ⟨.promise s.nextPid out, by simp [runBuild, hb]⟩

theorem resolveFactory_instances_shape (s : Container V E) (t : Token V E) :
    (s.resolveFactory t).2.instances = s.instances ∨
    ∃ f x, lookupActual s t = some f ∧
      (s.resolveFactory t).2.instances = mset s.instances f.name x := by
  cases hl : lookupActual s t with
  | none =>
      left
      unfold Container.resolveFactory
      rw [hl]
  | some f =>
      have hbuild : (runBuild s f).2.instances = s.instances ∨
          ∃ g x, some f = some g ∧
            (runBuild s f).2.instances = mset s.instances g.name x := by
        rcases runBuild_instances_shape s f with h | ⟨x, h⟩
        · exact Or.inl h
        · exact Or.inr ⟨f, x, rfl, h⟩
      cases hc : mget s.instances (tokenName t) with
      | none =>
          rw [resolveFactory_miss s t f hl hc]
          exact hbuild
      | some e =>
          cases e with
          | undef =>
              rw [resolveFactory_missUndef s t f hl hc]
              exact hbuild
          | val v =>
              rw [resolveFactory_hit s t f _ hl hc (by simp)]
              exact Or.inl rfl
          | promise p o =>
              rw [resolveFactory_hit s t f _ hl hc (by simp)]
              exact Or.inl rfl

/-- A single resolution preserves the cache-within-registry inclusion,
provided any factory token was issued by this container. -/
theorem resolveFactory_cacheSub (s : Container V E) (t : Token V E)
    (hwf : WF s)
    (hiss : ∀ f ∈ s.issued, (mget s.factories f.name).isSome)
    (htok : ∀ f, t = Token.fac f → f ∈ s.issued)
    (hsub : ∀ n, (mget s.instances n).isSome → (mget s.factories n).isSome) :
    ∀ n, (mget (s.resolveFactory t).2.instances n).isSome →
      (mget (s.resolveFactory t).2.factories n).isSome := by
  intro n hn
  rw [resolveFactory_factories]
  rcases resolveFactory_instances_shape s t with hsh | ⟨f, x, hl, hsh⟩
  · exact hsub n (by rwa [hsh] at hn)
  · rw [hsh] at hn
    by_cases hnf : n = f.name
    · subst hnf
      cases t with
      | fac g =>
          have hg : g = f := Option.some.inj (show some g = some f from hl)
          subst hg
          exact hiss g (htok g rfl)
      | ref m =>
          have hm : mget s.factories m = some f := hl
          rw [hwf m f hl, hm]
          rfl
    · rw [mget_mset_ne _ _ _ _ hnf] at hn
      exact hsub n hn

/-- The batch loop preserves the cache-within-registry inclusion. -/
theorem resolveLoop_cacheSub (ts : List (Token V E)) (s : Container V E)
    (acc : List (String × JSVal V E)) (hwf : WF s)
    (hiss : ∀ f ∈ s.issued, (mget s.factories f.name).isSome)
    (hsub : ∀ n, (mget s.instances n).isSome → (mget s.factories n).isSome)
    (hts : TokensOK s ts) :
    ∀ n, (mget (resolveLoop s ts acc).2.instances n).isSome →
      (mget (resolveLoop s ts acc).2.factories n).isSome := by
  induction ts generalizing s acc with
  | nil => exact hsub
  | cons t ts ih =>
      simp only [resolveLoop]
      rcases hr : s.resolveFactory t with ⟨res, s'⟩
      have hfac : s'.factories = s.factories := by
        have := resolveFactory_factories s t
        rw [hr] at this
        exact this
      have hizd : s'.issued = s.issued := by
        have := resolveFactory_issued s t
        rw [hr] at this
        exact this
      have hwf' : WF s' := by
        have := resolveFactory_WF s t hwf
        rw [hr] at this
        exact this
      have hsub' : ∀ n, (mget s'.instances n).isSome →
          (mget s'.factories n).isSome := by
        have := resolveFactory_cacheSub s t hwf hiss
          (fun f hf => hts f (by rw [hf]; exact List.mem_cons_self _ _)) hsub
        rw [hr] at this
        exact this
      have hiss' : ∀ f ∈ s'.issued, (mget s'.factories f.name).isSome := by
        rw [hizd, hfac]
        exact hiss
      have hts' : TokensOK s' ts := by
        intro f hf
        rw [hizd]
        exact hts f (List.mem_cons_of_mem _ hf)
      cases res with
      | error err => exact hsub'
      | ok v => exact ih s' (mset acc (tokenName t) v) hwf' hiss' hsub' hts'

/-- The batch loop never touches the issued-handles ghost list. -/
theorem resolveLoop_issued (ts : List (Token V E)) (s : Container V E)
    (acc : List (String × JSVal V E)) :
    (resolveLoop s ts acc).2.issued = s.issued := by
  induction ts generalizing s acc with
  | nil => rfl
  | cons t ts ih =>
      simp only [resolveLoop]
      rcases hr : s.resolveFactory t with ⟨res, s'⟩
      have h1 : s'.issued = s.issued := by
        have := resolveFactory_issued s t
        rw [hr] at this
        exact this
      cases res with
      | error err => exact h1
      | ok v => rw [ih s' (mset acc (tokenName t) v), h1]

/-- The registration step of the reachability invariant, shared between
`register` and `registerAsync` (their state effects coincide). -/
theorem register_inv (s : Container V E) (n : String) (f : Factory V E)
    (hfn : f.name = n)
    (hiss : ∀ g ∈ s.issued, (mget s.factories g.name).isSome)
    (hsub : ∀ k, (mget s.instances k).isSome → (mget s.factories k).isSome) :
    (∀ g ∈ f :: s.issued, (mget (mset s.factories n f) g.name).isSome) ∧
    (∀ k, (mget s.instances k).isSome → (mget (mset s.factories n f) k).isSome) := by
  constructor
  · intro g hg
    rcases List.mem_cons.mp hg with hh | ht
    · subst hh
      rw [hfn, mget_mset_self]
      rfl
    · exact mget_mset_isSome _ _ _ _ (hiss g ht)
  · intro k hk
    exact mget_mset_isSome _ _ _ _ (hsub k hk)

/-- The batch-resolution step of the reachability invariant. -/
theorem resolve_inv (s : Container V E) (ts : List (Token V E))
    (hts : TokensOK s ts) (hwf : WF s)
    (hiss : ∀ f ∈ s.issued, (mget s.factories f.name).isSome)
    (hsub : ∀ n, (mget s.instances n).isSome → (mget s.factories n).isSome) :
    WF (s.resolve ts).2 ∧
    (∀ f ∈ (s.resolve ts).2.issued, (mget (s.resolve ts).2.factories f.name).isSome) ∧
    (∀ n, (mget (s.resolve ts).2.instances n).isSome →
      (mget (s.resolve ts).2.factories n).isSome) := by
  refine ⟨resolveLoop_WF ts s [] hwf, ?_, resolveLoop_cacheSub ts s [] hwf hiss hsub hts⟩
  show ∀ f ∈ (resolveLoop s ts []).2.issued,
    (mget (resolveLoop s ts []).2.factories f.name).isSome
  rw [resolveLoop_factories, resolveLoop_issued]
  exact hiss

/-- Every reachable container state is registry-well-formed, has all issued
handles present in the registry, and keeps its instance cache within the
registry. -/
theorem reachable_inv (s : Container V E) (h : Reachable s) :
    WF s ∧ (∀ f ∈ s.issued, (mget s.factories f.name).isSome) ∧
    (∀ n, (mget s.instances n).isSome → (mget s.factories n).isSome) := by
  induction h with
  | empty =>
      refine ⟨WF_empty, ?_, ?_⟩
      · intro f hf
        cases hf
      · intro n hn
        simp [Container.empty, mget] at hn
  | register s n b hs ih =>
      obtain ⟨hwf, hiss, hsub⟩ := ih
      exact ⟨WF_register s n b hwf,
        (register_inv s n _ rfl hiss hsub).1,
        (register_inv s n _ rfl hiss hsub).2⟩
  | registerAsync s n b hs ih =>
      obtain ⟨hwf, hiss, hsub⟩ := ih
      exact ⟨WF_registerAsync s n b hwf,
        (register_inv s n _ rfl hiss hsub).1,
        (register_inv s n _ rfl hiss hsub).2⟩
  | resolve s ts hs hts ih =>
      obtain ⟨hwf, hiss, hsub⟩ := ih
      exact resolve_inv s ts hts hwf hiss hsub
  | resolveAsync s ts hs hts ih =>
      obtain ⟨hwf, hiss, hsub⟩ := ih
      have h := resolve_inv s ts hts hwf hiss hsub
      rwa [← resolveAsync_state] at h
  | clearInstance s n hs ih =>
      obtain ⟨hwf, hiss, hsub⟩ := ih
      refine ⟨hwf, hiss, ?_⟩
      intro k hk
      show (mget s.factories k).isSome
      by_cases hkn : k = n
      · subst hkn
        rw [show (s.clearInstance k).instances = mdelete s.instances k from rfl,
          mget_mdelete_self] at hk
        cases hk
      · rw [show (s.clearInstance n).instances = mdelete s.instances n from rfl,
          mget_mdelete_ne _ _ _ hkn] at hk
        exact hsub k hk
  | clearAllInstances s hs ih =>
      obtain ⟨hwf, hiss, hsub⟩ := ih
      refine ⟨hwf, hiss, ?_⟩
      intro k hk
      simp [Container.clearAllInstances, mget] at hk

/-- C9: in every state reachable through the public operations, every name
present in the instance cache is also present in the factory registry,
while a name can be registered without ever appearing in the cache (the
freshly registered, never-resolved `"a"` exhibits it). -/
theorem C9_cache_within_registry :
    (∀ {V E : Type} (s : Container V E), Reachable s →
        ∀ n, (mget s.instances n).isSome → (mget s.factories n).isSome) ∧
    (∃ s : Container Nat Nat, Reachable s ∧
        (mget s.factories "a").isSome ∧ mget s.instances "a" = none) := by
  constructor
  · intro V E s h n hn
    exact (reachable_inv s h).2.2 n hn
  · exact ⟨c1reg.2,
      Reachable.register (Container.empty Nat Nat) "a" bVal7 Reachable.empty,
      rfl, rfl⟩

/-- Witness for C9: the state that registered `"a"` and resolved it through
the public batch path is reachable, caches `"a"`, and indeed has `"a"` in
its registry. -/
theorem C9_cache_within_registry_witness :
    (mget c9s.factories "a").isSome := by
  have htok : TokensOK c1reg.2 [Token.fac c1reg.1] := by
    intro f hf
    rw [List.mem_singleton] at hf
    injection hf with hf'
    subst hf'
    exact List.mem_singleton.mpr rfl
  exact C9_cache_within_registry.1 c9s
    (Reachable.resolve c1reg.2 [Token.fac c1reg.1]
      (Reachable.register (Container.empty Nat Nat) "a" bVal7 Reachable.empty)
      htok)
    "a" rfl

theorem resolveFactory_undef_step (s : Container V E) (f : Factory V E)
    (hb : ∀ k, f.build k = BuildOut.retUndef)
    (hc : mget s.instances f.name = none ∨
      mget s.instances f.name = some JSVal.undef) :
    s.resolveFactory (Token.fac f) =
      (.ok JSVal.undef,
       { s with counts := mset s.counts f.fid (getCount s.counts f.fid + 1)
              , instances := mset s.instances f.name JSVal.undef }) := by
  have hstep : s.resolveFactory (Token.fac f) = runBuild s f := by
    rcases hc with hc | hc
    · exact resolveFactory_miss s (Token.fac f) f rfl hc
    · exact resolveFactory_missUndef s (Token.fac f) f rfl hc
  rw [hstep]
  simp [runBuild, hb]

/-- C10: a sync build that returns `undefined` defeats the cache: the
`!== undefined` presence check never reports a hit for that name, so `m`
back-to-back resolutions — with no invalidation anywhere — invoke the build
function exactly `m` times, and each resolution (when there is one) returns
`undefined`. -/
theorem C10_undefined_never_cached (s : Container V E) (f : Factory V E)
    (m : Nat) (hb : ∀ k, f.build k = BuildOut.retUndef)
    (hc : mget s.instances f.name = none ∨
      mget s.instances f.name = some JSVal.undef) :
    getCount (iterateResolve (Token.fac f) m s).counts f.fid =
      getCount s.counts f.fid + m ∧
    (0 < m → (s.resolveFactory (Token.fac f)).1 = .ok JSVal.undef) := by
  induction m generalizing s with
  | zero =>
      refine ⟨rfl, ?_⟩
      intro h
      exact absurd h (lt_irrefl 0)
  | succ m ih =>
      have hstep := resolveFactory_undef_step s f hb hc
      have hiter : iterateResolve (Token.fac f) (m + 1) s =
          iterateResolve (Token.fac f) m (s.resolveFactory (Token.fac f)).2 := rfl
      have hc' : mget (s.resolveFactory (Token.fac f)).2.instances f.name =
          none ∨
          mget (s.resolveFactory (Token.fac f)).2.instances f.name =
          some JSVal.undef := by
        right
        rw [hstep]
        exact mget_mset_self ..
      have hcount : getCount (s.resolveFactory (Token.fac f)).2.counts f.fid =
          getCount s.counts f.fid + 1 := by
        rw [hstep]
        exact getCount_mset_self ..
      obtain ⟨ih1, _⟩ := ih (s.resolveFactory (Token.fac f)).2 hc'
      refine ⟨?_, ?_⟩
      · rw [hiter, ih1, hcount]
        omega
      · intro h
        rw [hstep]

/-- Witness for C10: three resolutions of the `undefined`-returning build
under `"u"` invoke it three times. -/
theorem C10_undefined_never_cached_witness :
    getCount (iterateResolve (Token.fac c10reg.1) 3 c10reg.2).counts
        c10reg.1.fid =
      getCount c10reg.2.counts c10reg.1.fid + 3 ∧
    (c10reg.2.resolveFactory (Token.fac c10reg.1)).1 = .ok JSVal.undef := by
  have h := C10_undefined_never_cached c10reg.2 c10reg.1 3
    (fun k => rfl) (Or.inl rfl)
  exact ⟨h.1, h.2 (by omega)⟩

end Claims

end TinyDI
